import Mathlib

/-!
# Verification of the marian expression-operator layer

Shallow embedding of `src/graph/expression_operators.cpp` (namespace `marian`).
Expression graphs are modelled by an inductive type `Expr` whose constructors
mirror the primitive node-operation classes the file instantiates
(`SoftmaxNodeOp`, `DotNodeOp`, `AffineNodeOp`, `TransposeNodeOp`, ...).
The operator functions of the file are translated as Lean functions building
these trees.  Parts of the repository that the file uses but that are not in
`src/` (the `Shape` class from `graph/shape.h`, `util::hash_combine`, the
`AutoTuner` from `graph/auto_tuner.h`, the node classes' output-shape rules)
are modelled from the specification; every such definition carries a doc
comment starting with `Modelled from the spec:`.

Scalars (clip values, scales, tensor entries) are embedded as rationals `ℚ`,
each float literal of the file entering as the exact float32 value it denotes
after IEEE-754 round-to-nearest — in particular the mask-bias literal
`-99999999.f` needs 27 significand bits, exceeds float32's 24, and rounds to
exactly `-100000000 = -1e8`, which is therefore the constant embedded for it.
Equality with zero (the only float comparison the file performs, in `clip`)
is decidable on `ℚ`.
-/

namespace Marian

/-- Device class of the backend (`DeviceType` in marian). Only the
distinction `cpu` vs anything else matters to this file. -/
inductive DeviceType where
  | cpu
  | gpu
deriving DecidableEq, Repr

/-- The graph-level configuration that `dot` and `affine` read through
`a->graph()`: the device id's type, the `isOptimized()` flag and the
backend's clip value `getBackend()->getClip()`.  In the C++ code these are
reached through the node's back-reference to its graph; the embedding passes
them explicitly. -/
structure GraphCfg where
  device : DeviceType
  optimized : Bool
  clip : ℚ
deriving DecidableEq, Repr

/-- Expression graph nodes.  One constructor per primitive node-operation
class constructed by `expression_operators.cpp` (restricted to the operators
the claims touch).  `leaf` stands for an arbitrary pre-existing expression
(a graph input), identified by an id and carrying its shape; `tensor` is a
leaf with concrete rational entries (row-major), used by the evaluator.
`AffineNodeOp` receives its four inputs `{a, b, bias, ones}` as a
`std::vector` in C++; they are four explicit fields here. -/
inductive Expr where
  | leaf (id : Nat) (sh : List Nat)
  | tensor (dims : List Nat) (data : List ℚ)
  | neg (a : Expr)
  | scalarAdd (a : Expr) (c : ℚ)
  | scalarMult (a : Expr) (c : ℚ)
  | plusNode (a b : Expr)
  | minusNode (a b : Expr)
  | multNode (a b : Expr)
  | divNode (a b : Expr)
  | clipNode (a : Expr) (c : ℚ)
  | softmaxNode (a : Expr)
  | transposeNode (a : Expr) (axes : List Nat)
  | reshapeNode (a : Expr) (sh : List Nat)
  | sumNode (a : Expr) (ax : Int)
  | scalarProductNode (a b : Expr) (ax : Int)
  | dotNode (a b : Expr) (transA transB : Bool) (scale : ℚ)
  | affineNode (a b bias ones : Expr) (transA transB : Bool) (scale : ℚ)
  | onesNode (sh : List Nat)
  | int16Dot (a b : Expr) (scale : ℚ)
  | int16Affine (a b bias : Expr) (scale : ℚ)
  | int16Quantize (a : Expr) (c : ℚ)
deriving DecidableEq, Repr

/-- Source `Shape::elements()`: total number of entries, the product of all
dimensions. -/
def Shape.elements (sh : List Nat) : Nat := sh.prod

/-- Modelled from the spec: `Shape::operator[]`/`dim` (`graph/shape.h`, not
under `src/`) — negative indices address from the end (`-1` is the last
dimension), non-negative indices from the front (§3, §4.1). -/
def Shape.dim (sh : List Nat) (i : Int) : Nat :=
  if 0 ≤ i then sh.getD i.toNat 0 else sh.getD (sh.length - (-i).toNat) 0

/-- Modelled from the spec: `Shape::set` (`graph/shape.h`, not under
`src/`) — write a dimension, negative indices addressing from the end. -/
def Shape.setDim (sh : List Nat) (i : Int) (v : Nat) : List Nat :=
  if 0 ≤ i then sh.set i.toNat v else sh.set (sh.length - (-i).toNat) v

/-- Modelled from the spec: `resolveAxis` / `Shape::axis` (§4.1;
`graph/shape.h` is not under `src/`): a negative axis resolves to
`rank + axis`; resolution fails if the result falls outside `[0, rank)`. -/
def Shape.axis (rank : Nat) (ax : Int) : Option Nat :=
  let r : Int := if ax < 0 then (rank : Int) + ax else ax
  if 0 ≤ r ∧ r < (rank : Int) then some r.toNat else none

/-- Modelled from the spec: broadcast result shape for elementwise binary
operations (§3): align from the trailing dimension, each pair combined by
`max` (equal dims or one of them 1). No claim below depends on this rule. -/
def broadcastShape (a b : List Nat) : List Nat :=
  let n := max a.length b.length
  List.zipWith max (List.replicate (n - a.length) 1 ++ a)
                   (List.replicate (n - b.length) 1 ++ b)

/-- Output shape of every node kind.  For node classes whose shape rule the
file itself relies on (elementwise ops, `SoftmaxNodeOp`, `ClipNodeOp`,
`TransposeNodeOp`, `ReshapeNodeOp`) the rule is the evident one; for the
reduction and matrix-product classes (which live outside `src/`) the rule is
modelled from the spec (§4.2: reductions collapse the axis to size 1;
products combine the operands' outer dimensions) — no claim below depends on
the matrix-product cases. -/
def Expr.shape : Expr → List Nat
  | .leaf _ sh => sh
  | .tensor dims _ => dims
  | .neg a => a.shape
  | .scalarAdd a _ => a.shape
  | .scalarMult a _ => a.shape
  | .plusNode a b => broadcastShape a.shape b.shape
  | .minusNode a b => broadcastShape a.shape b.shape
  | .multNode a b => broadcastShape a.shape b.shape
  | .divNode a b => broadcastShape a.shape b.shape
  | .clipNode a _ => a.shape
  | .softmaxNode a => a.shape
  | .transposeNode a axes => axes.map (fun i => a.shape.getD i 0)
  | .reshapeNode _ sh => sh
  | .sumNode a ax =>
      match Shape.axis a.shape.length ax with
      | some i => a.shape.set i 1
      | none => a.shape
  | .scalarProductNode a _ ax =>
      match Shape.axis a.shape.length ax with
      | some i => a.shape.set i 1
      | none => a.shape
  | .dotNode a b transA transB _ =>
      Shape.setDim (if transA then Shape.setDim a.shape (-1) (Shape.dim a.shape (-2)) else a.shape)
        (-1) (if transB then Shape.dim b.shape (-2) else Shape.dim b.shape (-1))
  | .affineNode a b _ _ transA transB _ =>
      Shape.setDim (if transA then Shape.setDim a.shape (-1) (Shape.dim a.shape (-2)) else a.shape)
        (-1) (if transB then Shape.dim b.shape (-2) else Shape.dim b.shape (-1))
  | .onesNode sh => sh
  | .int16Dot a b _ => Shape.setDim a.shape (-1) (Shape.dim b.shape (-1))
  | .int16Affine a b _ _ => Shape.setDim a.shape (-1) (Shape.dim b.shape (-1))
  | .int16Quantize a _ => a.shape

/-! ## Elementwise operators (`operator+`, `operator-`, `operator*` of the file) -/

/-- Source `Expr operator+(Expr a, Expr b)`: constructs a `PlusNodeOp`. -/
def addExpr (a b : Expr) : Expr := Expr.plusNode a b

/-- Source `Expr operator-(float a, Expr b)`: constructs
`ScalarAddNodeOp(-b, a)` — the tensor is negated by a `NegNodeOp` and the
scalar is added. -/
def subScalarExpr (a : ℚ) (b : Expr) : Expr := Expr.scalarAdd (Expr.neg b) a

/-- Source `Expr operator*(Expr a, float b)`: constructs `ScalarMultNodeOp(a, b)`. -/
def mulExprScalar (a : Expr) (b : ℚ) : Expr := Expr.scalarMult a b

/-- Source `clip(a, c)`: `c == 0` means "clipping disabled" and returns `a` itself;
otherwise a `ClipNodeOp` is constructed. -/
def clip (a : Expr) (c : ℚ) : Expr :=
  if c = 0 then a else Expr.clipNode a c

/-! ## Shape-manipulating operators -/

/-- Source `reshape(a, shape)`: constructs a `ReshapeNodeOp`. -/
def reshape (a : Expr) (sh : List Nat) : Expr := Expr.reshapeNode a sh

/-- Source `atleast_nd(a, dims)`: if the rank is already at least `dims`, return
`a` itself; otherwise build a rank-`dims` shape (initialized to all 1s by
`Shape::resize`) and copy `a`'s dimensions into its trailing positions with
`nShape.set(-i, a->shape()[-i])` for `i = 1 .. rank(a)`, then reshape. -/
def atleast_nd (a : Expr) (dims : Nat) : Expr :=
  if a.shape.length ≥ dims then a
  else
    let nShape := (List.range a.shape.length).foldl
      (fun (ns : List Nat) (i : Nat) =>
        Shape.setDim ns (-(i + 1 : Int)) (Shape.dim a.shape (-(i + 1 : Int))))
      (List.replicate dims 1)
    reshape a nShape

/-- Source `transpose(a)` (no axes): swap exactly the last two axes.  The identity
permutation is built and, when the rank exceeds 1, its last two entries are
exchanged; a `TransposeNodeOp` is constructed on the result. -/
def transpose (a : Expr) : Expr :=
  let n := a.shape.length
  let axes := List.range n
  let axes := if n > 1 then (axes.set (n - 1) (n - 2)).set (n - 2) (n - 1) else axes
  Expr.transposeNode a axes

/-- Source `transpose(a, axes)`: constructs a `TransposeNodeOp` with an explicit
permutation. -/
def transposeAxes (a : Expr) (axes : List Nat) : Expr := Expr.transposeNode a axes

/-- Models `std::swap(v[i], v[j])` on a list: the value at `i` is saved, `v[i]`
receives `v[j]`, `v[j]` receives the saved value. -/
def listSwap (l : List Nat) (i j : Nat) : List Nat :=
  let t := l.getD i 0
  let l := l.set i (l.getD j 0)
  l.set j t

/-- Source `swapAxes(x, axis1, axis2)`: resolve both axes against the rank
(failure of resolution aborts, modelled as `none`), return `x` itself when
they resolve equal, otherwise swap the two entries of the identity
permutation and delegate to `transpose(x, axes)`. -/
def swapAxes (x : Expr) (axis1 axis2 : Int) : Option Expr := do
  let a1 ← Shape.axis x.shape.length axis1
  let a2 ← Shape.axis x.shape.length axis2
  if a1 = a2 then
    return x
  else
    let axes := List.range x.shape.length
    return transposeAxes x (listSwap axes a1 a2)

/-! ## Softmax family -/

/-- Source `softmax(a, axis)`: for `axis != -1` the target axis is swapped to the
last position, the canonical last-axis softmax is applied and the axes are
swapped back; for `axis == -1` a `SoftmaxNodeOp` is constructed directly.
Axis-resolution failure inside `swapAxes` propagates as `none`. -/
def softmax (a : Expr) (axis : Int) : Option Expr :=
  if axis ≠ -1 then
    (swapAxes a axis (-1)).bind fun t =>
      (softmax t (-1)).bind fun s =>
        swapAxes s axis (-1)
  else
    some (Expr.softmaxNode a)
termination_by if axis = -1 then 0 else 1
decreasing_by simp_all

/-- Source `softmax(a, zeroOneMask, axis)`: the mask is turned into an additive
bias `(1 - zeroOneMask) * -99999999.f` and added to `a` before the
axis-softmax.  The float32 literal `-99999999.f` rounds to exactly
`-100000000 = -1e8` (99999999 needs 27 significand bits, float32 has 24),
so that is the scalar the program stores and the one embedded here. -/
def softmaxMask (a zeroOneMask : Expr) (axis : Int) : Option Expr :=
  let logMask := mulExprScalar (subScalarExpr 1 zeroOneMask) (-100000000)
  softmax (addExpr a logMask) axis

/-! ## Reductions and the weighted average -/

/-- Source `sum(a, ax)`: constructs a `SumNodeOp`. -/
def sum (a : Expr) (ax : Int) : Expr := Expr.sumNode a ax

/-- Source `scalar_product(a, b, ax)`: constructs a `ScalarProductNodeOp`. -/
def scalar_product (a b : Expr) (ax : Int) : Expr := Expr.scalarProductNode a b ax

/-- Source `operator/(Expr a, Expr b)`: constructs a `DivNodeOp`. -/
def divExpr (a b : Expr) : Expr := Expr.divNode a b

/-- Source `weighted_average(in, weights, ax)`: the scalar product of the inputs
divided by the sum of the weights. -/
def weighted_average (i weights : Expr) (ax : Int) : Expr :=
  let p := scalar_product i weights ax
  let s := sum weights ax
  divExpr p s

/-! ## dot: full-precision vs reduced-precision routing -/

/-- Source `dot(a, b, transA, transB, scale)`: when the graph's optimize flag is
set and the device is CPU, route through the int16 path — each operand is
quantized with the backend clip value, and since `cpu::int16::dot` computes
`A * Bᵗ`, `b` is transposed exactly when `transB` is false (and `a` exactly
when `transA` is true).  Otherwise construct a `DotNodeOp` over the clipped
operands.  The graph configuration is reached through `a->graph()` in C++
and passed explicitly here. -/
def dot (g : GraphCfg) (a b : Expr) (transA transB : Bool) (scale : ℚ) : Expr :=
  if g.optimized = true ∧ g.device = DeviceType.cpu then
    Expr.int16Dot
      (Expr.int16Quantize (if transA then transpose a else a) g.clip)
      (Expr.int16Quantize (if transB then b else transpose b) g.clip)
      scale
  else
    Expr.dotNode (clip a g.clip) (clip b g.clip) transA transB scale

/-! ## The auto-tuner and the affine fingerprint -/

/-- Modelled from the spec: `util::hash_combine` (`common/hash.h`, not
under `src/`) — a deterministic combiner of a running 64-bit seed with the
hash of the next value (§4.3 requires only a deterministic combination). -/
def hashCombine (seed v : Nat) : Nat := (seed * 1099511628211 + v) % 2 ^ 64

/-- Modelled from the spec: `Shape::hash()` (`graph/shape.h`, not under
`src/`) — a deterministic hash of the dimension sequence. -/
def shapeHashN (sh : List Nat) : Nat := sh.foldl hashCombine sh.length

/-- Models `std::hash` of a `bool`, as combined by `util::hash_combine`. -/
def boolHash (b : Bool) : Nat := if b then 1 else 0

/-- The local lambda `sh` of `affine`: every dimension of a shape is
divided by 4 (integer division) to coarsen the tuner fingerprint. -/
def shDiv4 (sh : List Nat) : List Nat := sh.map (· / 4)

/-- The fingerprint context of one `affine` call: the hash of the three
coarsened operand shapes combined with the two transpose flags (before the
candidate ordinal is mixed in). -/
def affineBaseHash (aSh bSh biasSh : List Nat) (transA transB : Bool) : Nat :=
  let hash := shapeHashN (shDiv4 aSh)
  let hash := hashCombine hash (shapeHashN (shDiv4 bSh))
  let hash := hashCombine hash (shapeHashN (shDiv4 biasSh))
  let hash := hashCombine hash (boolHash transA)
  hashCombine hash (boolHash transB)

/-- Modelled from the spec: the `AutoTuner` (`graph/auto_tuner.h`, not
under `src/`), as described in §4.3.  `algorithms` is the list of
registered candidates, each a fingerprint paired with the expression that
candidate builds (the C++ stores a deferred closure; construction is pure
here, so the built expression stands for the closure's result).  `done`
caches resolved decisions: the candidate-fingerprint list of a call mapped
to the index of the winning algorithm. -/
structure AutoTuner where
  algorithms : List (Nat × Expr)
  done : List (List Nat × Nat)
deriving DecidableEq, Repr

/-- A tuner with no registered candidates and no resolved decisions. -/
def AutoTuner.empty : AutoTuner := ⟨[], []⟩

/-- Source `AutoTuner::clear()`: "start with new set of algorithms" (comment in
`affine`) — the candidate list is discarded; resolved timing decisions
survive, which is what lets a later call with the same fingerprint reuse
the cached choice. -/
def AutoTuner.clear (t : AutoTuner) : AutoTuner := { t with algorithms := [] }

/-- Source `AutoTuner::insert`: append one (fingerprint, candidate) pair. -/
def AutoTuner.insert (t : AutoTuner) (ha : Nat × Expr) : AutoTuner :=
  { t with algorithms := t.algorithms ++ [ha] }

/-- Association lookup in the resolved-decision cache. -/
def lookupDone : List (List Nat × Nat) → List Nat → Option Nat
  | [], _ => none
  | (k, v) :: rest, key => if k = key then some v else lookupDone rest key

/-- Index of the minimum of a timing list (first minimum wins). -/
def argminIdx (ts : List Nat) : Nat :=
  (List.range ts.length).foldl
    (fun best i => if ts.getD i 0 < ts.getD best 0 then i else best) 0

/-- Modelled from the spec: `AutoTuner::run()` (§4.3).  With no registered
candidate it fails (ConfigurationError, modelled as `none`).  For a
fingerprint already resolved it skips measurement and directly re-uses the
previously winning candidate; otherwise each candidate is timed (the
wall-clock readings enter as the oracle list `timings`), the minimum is
selected, and the decision is cached.  The result is the chosen candidate
index, the new tuner state, and whether measurement happened. -/
def AutoTuner.run (t : AutoTuner) (timings : List Nat) :
    Option (Nat × AutoTuner × Bool) :=
  match t.algorithms with
  | [] => none
  | _ :: _ =>
    let key := t.algorithms.map Prod.fst
    match lookupDone t.done key with
    | some i => some (i, t, false)
    | none =>
      let i := argminIdx timings
      some (i, { t with done := (key, i) :: t.done }, true)

/-! ## affine -/

/-- What `affine` returns: in the tuner branch the function's value is
whatever `tuner->run()` produces — a wall-clock-dependent choice among the
registered candidates, marked `tunerRun` (the candidates themselves are in
the returned tuner state) — and otherwise a directly constructed
expression. -/
inductive AffineResult where
  | tunerRun
  | plain (e : Expr)
deriving DecidableEq, Repr

/-- Source `affine(a, b, bias, transA, transB, scale)`: on an optimized CPU graph
the thread-local tuner is cleared and two candidates are registered under
fingerprints sharing the coarsened-shape context hash — ordinal 1 the
quantized int16 path, ordinal 2 the CBlas path whose inputs are the clipped
operands, the bias, and an all-ones column of `rows = elements/last-dim`
rows (bias-as-matmul) — and the function returns `tuner->run()`.  (The
`e->record(...)` calls tag nodes for timing attribution and return the node
unchanged; they do not alter the constructed graph and are dropped here.
`bool autotune = true;` is a constant, kept with its dead branch.)
Otherwise a single `AffineNodeOp` over the clipped operands, the bias and
an all-ones column is constructed.  The thread-local tuner is passed and
returned explicitly. -/
def affine (g : GraphCfg) (tuner : AutoTuner) (a b bias : Expr)
    (transA transB : Bool) (scale : ℚ) : AffineResult × AutoTuner :=
  if g.optimized = true ∧ g.device = DeviceType.cpu then
    let autotune := true
    if autotune then
      let t0 := tuner.clear
      let hash := affineBaseHash a.shape b.shape bias.shape transA transB
      let hash1 := hashCombine hash 1
      let alg1 :=
        Expr.int16Affine
          (Expr.int16Quantize (if transA then transpose a else a) g.clip)
          (Expr.int16Quantize (if transB then b else transpose b) g.clip)
          bias scale
      let t1 := t0.insert (hash1, alg1)
      let hash2 := hashCombine hash 2
      let alg2 :=
        let ac := clip a g.clip
        let bc := clip b g.clip
        let rows := Shape.elements ac.shape / Shape.dim ac.shape (-1)
        let ones := Expr.onesNode [rows, 1]
        Expr.affineNode ac bc bias ones transA transB scale
      let t2 := t1.insert (hash2, alg2)
      (AffineResult.tunerRun, t2)
    else
      (AffineResult.plain
        (Expr.int16Affine
          (Expr.int16Quantize (if transA then transpose a else a) g.clip)
          (Expr.int16Quantize (if transB then b else transpose b) g.clip)
          bias scale), tuner)
  else
    let rows := Shape.elements a.shape / Shape.dim a.shape (-1)
    let ones := Expr.onesNode [rows, 1]
    (AffineResult.plain
      (Expr.affineNode (clip a g.clip) (clip b g.clip) bias ones
        transA transB scale), tuner)

/-! ## Unimplemented multi-input variants -/

/-- The abort conditions of the file: `ABORT("Not implemented")` raises a
fatal, process-terminating configuration error. -/
inductive MarianAbort where
  | configurationError (msg : String)
deriving DecidableEq, Repr

/-- Source `Expr plus(const std::vector<Expr>&)`: unimplemented stub, aborts. -/
def plusVec (_ : List Expr) : Except MarianAbort Expr :=
  Except.error (MarianAbort.configurationError "Not implemented")

/-- Source `Expr swish(const std::vector<Expr>&)`: unimplemented stub, aborts. -/
def swishVec (_ : List Expr) : Except MarianAbort Expr :=
  Except.error (MarianAbort.configurationError "Not implemented")

/-- Source `Expr sigmoid(const std::vector<Expr>&)`: unimplemented stub, aborts. -/
def sigmoidVec (_ : List Expr) : Except MarianAbort Expr :=
  Except.error (MarianAbort.configurationError "Not implemented")

/-- Source `Expr relu(const std::vector<Expr>&)`: unimplemented stub, aborts. -/
def reluVec (_ : List Expr) : Except MarianAbort Expr :=
  Except.error (MarianAbort.configurationError "Not implemented")

/-- Source `Expr leakyrelu(const std::vector<Expr>&)`: unimplemented stub,
aborts. -/
def leakyreluVec (_ : List Expr) : Except MarianAbort Expr :=
  Except.error (MarianAbort.configurationError "Not implemented")

/-- Source `Expr prelu(const std::vector<Expr>&, float alpha)`: unimplemented
stub, aborts. -/
def preluVec (_ : List Expr) (_ : ℚ) : Except MarianAbort Expr :=
  Except.error (MarianAbort.configurationError "Not implemented")

/-! ## A value semantics for the reduction fragment

The claims compare `weighted_average` elementwise against
`sum(v*w, ax) / sum(w, ax)`.  The node classes involved
(`ScalarProductNodeOp`, `SumNodeOp`, `MultNodeOp`, `DivNodeOp`) live outside
`src/`, so their value semantics is modelled from the spec: tensors are
dense row-major rational arrays, a reduction collapses the chosen axis to
size 1 (§4.2), the scalar product is the axis-sum of the elementwise
product (§4.2, §8), and elementwise binary operations are evaluated here
for operands of equal shape (the general broadcast case is not needed by
any claim).  Node kinds outside this fragment evaluate to `none`. -/

/-- A dense tensor: a shape and its row-major entries. -/
structure Tensor where
  dims : List Nat
  data : List ℚ
deriving DecidableEq, Repr

/-- Sum along a reduction axis via the row-major (outer, axis, inner)
decomposition: the entry at outer index `o` and inner index `i` of the
result is the sum over the axis positions `j` of
`data[(o * axLen + j) * inner + i]`. -/
def reduceIndexSum (data : List ℚ) (outer axLen inner : Nat) : List ℚ :=
  (List.range (outer * inner)).map fun oi =>
    ((List.range axLen).map fun j =>
      data.getD ((oi / inner * axLen + j) * inner + oi % inner) 0).sum

/-- Modelled from the spec: the value of `ScalarProductNodeOp` — the sum
along the reduction axis of the products of corresponding entries of the
two operands, products formed inside the reduction. -/
def reduceIndexDot (da db : List ℚ) (outer axLen inner : Nat) : List ℚ :=
  (List.range (outer * inner)).map fun oi =>
    ((List.range axLen).map fun j =>
      da.getD ((oi / inner * axLen + j) * inner + oi % inner) 0 *
      db.getD ((oi / inner * axLen + j) * inner + oi % inner) 0).sum

/-- Modelled from the spec: evaluation of the reduction fragment (see the
section comment).  A `tensor` leaf is valid when its data length matches
its shape's element count. -/
def evalT : Expr → Option Tensor
  | .tensor dims data =>
      if data.length = Shape.elements dims then some ⟨dims, data⟩ else none
  | .multNode a b => do
      let ta ← evalT a
      let tb ← evalT b
      if ta.dims = tb.dims then
        some ⟨ta.dims, List.zipWith (· * ·) ta.data tb.data⟩
      else none
  | .divNode a b => do
      let ta ← evalT a
      let tb ← evalT b
      if ta.dims = tb.dims then
        some ⟨ta.dims, List.zipWith (· / ·) ta.data tb.data⟩
      else none
  | .sumNode a ax => do
      let ta ← evalT a
      let i ← Shape.axis ta.dims.length ax
      some ⟨ta.dims.set i 1,
        reduceIndexSum ta.data (ta.dims.take i).prod (ta.dims.getD i 1)
          (ta.dims.drop (i + 1)).prod⟩
  | .scalarProductNode a b ax => do
      let ta ← evalT a
      let tb ← evalT b
      if ta.dims = tb.dims then do
        let i ← Shape.axis ta.dims.length ax
        some ⟨ta.dims.set i 1,
          reduceIndexDot ta.data tb.data (ta.dims.take i).prod
            (ta.dims.getD i 1) (ta.dims.drop (i + 1)).prod⟩
      else none
  | _ => none

/-! ## Theorems -/

/-- C9: the list-form (multi-input) variants of plus, swish, sigmoid, relu,
leakyrelu, and prelu fail unconditionally for every input: each is an
unimplemented stub that aborts with a fatal ConfigurationError, never
returning an expression. -/
theorem vector_variants_unimplemented (nodes : List Expr) (alpha : ℚ) :
    plusVec nodes = Except.error (MarianAbort.configurationError "Not implemented") ∧
    swishVec nodes = Except.error (MarianAbort.configurationError "Not implemented") ∧
    sigmoidVec nodes = Except.error (MarianAbort.configurationError "Not implemented") ∧
    reluVec nodes = Except.error (MarianAbort.configurationError "Not implemented") ∧
    leakyreluVec nodes = Except.error (MarianAbort.configurationError "Not implemented") ∧
    preluVec nodes alpha = Except.error (MarianAbort.configurationError "Not implemented") :=
  ⟨rfl, rfl, rfl, rfl, rfl, rfl⟩

/-- C2: `dot` routes through the reduced-precision path — quantizing each
operand with the backend clip value, transposing an operand first when
needed because the low-bit kernel computes `A·Bᵗ` — exactly when the
graph's optimize flag is set and the device is CPU; otherwise it constructs
a full-precision `DotNodeOp` whose operands are clipped to
`[-clipValue, clipValue]` when the backend's clip value is non-zero and
passed through unchanged when it is zero. -/
theorem dot_routing (g : GraphCfg) (a b : Expr) (transA transB : Bool) (scale : ℚ) :
    (g.optimized = true → g.device = DeviceType.cpu →
      dot g a b transA transB scale =
        Expr.int16Dot
          (Expr.int16Quantize (if transA then transpose a else a) g.clip)
          (Expr.int16Quantize (if transB then b else transpose b) g.clip)
          scale) ∧
    ((g.optimized = false ∨ g.device ≠ DeviceType.cpu) → g.clip ≠ 0 →
      dot g a b transA transB scale =
        Expr.dotNode (Expr.clipNode a g.clip) (Expr.clipNode b g.clip)
          transA transB scale) ∧
    ((g.optimized = false ∨ g.device ≠ DeviceType.cpu) → g.clip = 0 →
      dot g a b transA transB scale = Expr.dotNode a b transA transB scale) := by
  refine ⟨fun ho hd => ?_, fun h hc => ?_, fun h hc => ?_⟩
  · simp [dot, ho, hd]
  · have : ¬(g.optimized = true ∧ g.device = DeviceType.cpu) := by
      rcases h with h | h
      · simp [h]
      · simp [h]
    simp [dot, this, clip, hc]
  · have : ¬(g.optimized = true ∧ g.device = DeviceType.cpu) := by
      rcases h with h | h
      · simp [h]
      · simp [h]
    simp [dot, this, clip, hc]

/-- Witness for C2: on an optimized CPU graph with clip value 2, `dot`
builds the quantized int16 expression. -/
theorem dot_routing_witness :
    let g : GraphCfg := ⟨DeviceType.cpu, true, 2⟩
    g.optimized = true ∧ g.device = DeviceType.cpu ∧
    dot g (Expr.leaf 0 [2, 3]) (Expr.leaf 1 [3, 4]) false false 1 =
      Expr.int16Dot
        (Expr.int16Quantize (Expr.leaf 0 [2, 3]) 2)
        (Expr.int16Quantize (transpose (Expr.leaf 1 [3, 4])) 2) 1 :=
  ⟨rfl, rfl,
    (dot_routing ⟨DeviceType.cpu, true, 2⟩ (Expr.leaf 0 [2, 3]) (Expr.leaf 1 [3, 4])
      false false 1).1 rfl rfl⟩

/-- C4: for every expression `a`, zero/one mask expression `m` and axis,
`softmax(a, m, axis)` is constructed exactly as the composition
`softmax(a + (1-m) * -1e8, axis)` — masked-out positions receive an
additive bias of `-1e8` (the stored float32 value of the source literal
`-99999999.f`) before the softmax — and not as a custom masked-softmax
kernel. -/
theorem softmaxMask_composition (a m : Expr) (axis : Int) :
    softmaxMask a m axis =
      softmax (addExpr a (mulExprScalar (subScalarExpr 1 m) (-100000000))) axis := rfl

/-- C8: `swapAxes(x, axis1, axis2)` first resolves both axes, returns `x`
itself unchanged when the two resolve to the same index, and otherwise
builds the permutation of `[0, rank)` that swaps the two resolved positions
and delegates to `transpose` — never a bespoke two-axis-swap kernel. -/
theorem swapAxes_spec (x : Expr) (axis1 axis2 : Int) (i1 i2 : Nat)
    (h1 : Shape.axis x.shape.length axis1 = some i1)
    (h2 : Shape.axis x.shape.length axis2 = some i2) :
    (i1 = i2 → swapAxes x axis1 axis2 = some x) ∧
    (i1 ≠ i2 → swapAxes x axis1 axis2 =
      some (transposeAxes x (listSwap (List.range x.shape.length) i1 i2))) := by
  unfold swapAxes
  rw [h1, h2]
  constructor
  · intro h
    subst h
    simp
  · intro h
    simp [Option.bind, h]

/-- Witness for C8: on a rank-3 expression the alias pair `0` / `-3`
resolves to the same index and `swapAxes` returns its argument. -/
theorem swapAxes_spec_witness :
    Shape.axis (Expr.leaf 0 [2, 3, 4]).shape.length 0 = some 0 ∧
    Shape.axis (Expr.leaf 0 [2, 3, 4]).shape.length (-3) = some 0 ∧
    swapAxes (Expr.leaf 0 [2, 3, 4]) 0 (-3) = some (Expr.leaf 0 [2, 3, 4]) :=
  ⟨by decide, by decide,
    (swapAxes_spec (Expr.leaf 0 [2, 3, 4]) 0 (-3) 0 0 (by decide) (by decide)).1 rfl⟩

/-- C5: for every expression and every axis argument other than `-1`,
`softmax(a, axis)` is the three-step composition
`swapAxes(softmax(swapAxes(a, axis, -1), -1), axis, -1)` — swap the target
axis to the last position, apply the canonical last-axis softmax primitive,
swap back — never a native non-last-axis softmax kernel. -/
theorem softmax_axis_pipeline (a : Expr) (axis : Int) (h : axis ≠ -1) :
    softmax a axis =
      (swapAxes a axis (-1)).bind fun t =>
        (softmax t (-1)).bind fun s =>
          swapAxes s axis (-1) := by
  rw [softmax]
  simp [h]

/-- Witness for C5: the pipeline equation at a rank-2 expression and
axis 0. -/
theorem softmax_axis_pipeline_witness :
    (0 : Int) ≠ -1 ∧
    softmax (Expr.leaf 0 [2, 3]) 0 =
      (swapAxes (Expr.leaf 0 [2, 3]) 0 (-1)).bind fun t =>
        (softmax t (-1)).bind fun s =>
          swapAxes s 0 (-1) :=
  ⟨by decide, softmax_axis_pipeline (Expr.leaf 0 [2, 3]) 0 (by decide)⟩

/-- Helper: resolving the positive last-axis index `rank - 1` on a
non-empty rank. -/
theorem Shape.axis_last_pos (rank : Nat) (h : 1 ≤ rank) :
    Shape.axis rank ((rank : Int) - 1) = some (rank - 1) := by
  have h1 : ¬((rank : Int) - 1 < 0) := by omega
  have h2 : (0 : Int) ≤ (rank : Int) - 1 ∧ (rank : Int) - 1 < (rank : Int) := by omega
  simp only [Shape.axis, if_neg h1, if_pos h2]
  congr 1
  omega

/-- Helper: resolving axis `-1` on a non-empty rank. -/
theorem Shape.axis_neg_one (rank : Nat) (h : 1 ≤ rank) :
    Shape.axis rank (-1) = some (rank - 1) := by
  have h1 : (-1 : Int) < 0 := by omega
  have h2 : (0 : Int) ≤ (rank : Int) + (-1) ∧ (rank : Int) + (-1) < (rank : Int) := by omega
  simp only [Shape.axis, if_pos h1, if_pos h2]
  congr 1
  omega

/-- Helper: `swapAxes(x, rank-1, -1)` is the identity on any expression of
positive rank, both axes resolving to the last index. -/
theorem swapAxes_last_pos_eq_id (x : Expr) (h : 1 ≤ x.shape.length) :
    swapAxes x ((x.shape.length : Int) - 1) (-1) = some x := by
  unfold swapAxes
  rw [Shape.axis_last_pos _ h, Shape.axis_neg_one _ h]
  simp

/-- C10: for every expression of rank `r ≥ 1`, `softmax(a, r-1)` — the
last axis named by its positive index — returns the very same node as
`softmax(a, -1)` and creates no transpose nodes: the positive index enters
the swap pipeline, but both surrounding `swapAxes` calls resolve their two
axes to the same index and return their argument unchanged, collapsing the
pipeline to the canonical last-axis softmax. -/
theorem softmax_positive_last_axis (a : Expr) (h : 1 ≤ a.shape.length) :
    softmax a ((a.shape.length : Int) - 1) = softmax a (-1) ∧
    softmax a ((a.shape.length : Int) - 1) = some (Expr.softmaxNode a) := by
  have hne : ((a.shape.length : Int) - 1) ≠ -1 := by omega
  have hlast : softmax a (-1) = some (Expr.softmaxNode a) := by
    rw [softmax]
    simp
  have hsw1 : swapAxes a ((a.shape.length : Int) - 1) (-1) = some a :=
    swapAxes_last_pos_eq_id a h
  have hsw2 : swapAxes (Expr.softmaxNode a) ((a.shape.length : Int) - 1) (-1) =
      some (Expr.softmaxNode a) :=
    swapAxes_last_pos_eq_id (Expr.softmaxNode a) h
  have main : softmax a ((a.shape.length : Int) - 1) = some (Expr.softmaxNode a) := by
    rw [softmax]
    simp [hne, hsw1, hlast, hsw2]
  exact ⟨main.trans hlast.symm, main⟩

/-- Witness for C10: a rank-1 expression, last axis named as `0`. -/
theorem softmax_positive_last_axis_witness :
    1 ≤ (Expr.leaf 0 [5]).shape.length ∧
    softmax (Expr.leaf 0 [5]) (((Expr.leaf 0 [5]).shape.length : Int) - 1) =
      softmax (Expr.leaf 0 [5]) (-1) ∧
    softmax (Expr.leaf 0 [5]) (((Expr.leaf 0 [5]).shape.length : Int) - 1) =
      some (Expr.softmaxNode (Expr.leaf 0 [5])) :=
  ⟨by decide, (softmax_positive_last_axis (Expr.leaf 0 [5]) (by decide)).1,
    (softmax_positive_last_axis (Expr.leaf 0 [5]) (by decide)).2⟩

/-- Helper: setting the last entry of a constant-replicate list splits off
a singleton. -/
theorem replicate_set_last (m c v : Nat) :
    (List.replicate (m + 1) c).set m v = List.replicate m c ++ [v] := by
  induction m with
  | zero => rfl
  | succ m ih =>
    show c :: (List.replicate (m + 1) c).set m v = c :: (List.replicate m c ++ [v])
    rw [ih]

/-- Helper: the trailing-copy loop of `atleast_nd`.  After copying the `k`
rightmost dimensions of `aSh` into an all-ones rank-`n` shape, the result
is `n - k` ones followed by those `k` dimensions. -/
theorem atleast_nd_loop (aSh : List Nat) (n : Nat) (hn : aSh.length ≤ n) :
    ∀ k, k ≤ aSh.length →
      (List.range k).foldl
        (fun (ns : List Nat) (i : Nat) =>
          Shape.setDim ns (-(i + 1 : Int)) (Shape.dim aSh (-(i + 1 : Int))))
        (List.replicate n 1)
      = List.replicate (n - k) 1 ++ aSh.drop (aSh.length - k) := by
  intro k
  induction k with
  | zero => simp
  | succ k ih =>
    intro hk
    have hk' : k ≤ aSh.length := by omega
    rw [List.range_succ, List.foldl_append, ih hk']
    simp only [List.foldl_cons, List.foldl_nil]
    -- the list being written has length n
    have hlen : (List.replicate (n - k) 1 ++ aSh.drop (aSh.length - k)).length = n := by
      simp only [List.length_append, List.length_replicate, List.length_drop]
      omega
    have hneg : ¬ (0 : Int) ≤ -(k + 1 : Int) := by omega
    have htoNat : ((-(-(k + 1 : Int))).toNat) = k + 1 := by omega
    rw [Shape.setDim, if_neg hneg, Shape.dim, if_neg (by omega : ¬ (0:Int) ≤ -(k + 1 : Int))]
    rw [htoNat, hlen]
    -- the write lands in the replicate prefix, at its last position
    have hidx : n - (k + 1) < (List.replicate (n - k) 1).length := by
      simp only [List.length_replicate]
      omega
    rw [List.set_append_left _ _ hidx]
    have hrep : n - k = (n - (k + 1)) + 1 := by omega
    rw [hrep, replicate_set_last, List.append_assoc]
    -- the copied value is the next dimension of aSh, extending the drop
    have hlt : aSh.length - (k + 1) < aSh.length := by omega
    rw [List.getD_eq_getElem aSh 0 hlt]
    have hdrop : aSh.drop (aSh.length - (k + 1)) =
        aSh[aSh.length - (k + 1)] :: aSh.drop (aSh.length - (k + 1) + 1) :=
      List.drop_eq_getElem_cons hlt
    have hstep : aSh.length - (k + 1) + 1 = aSh.length - k := by omega
    rw [hstep] at hdrop
    rw [List.singleton_append, ← hdrop]

/-- C6: for every expression `a` and target rank `n`: if `rank(a) ≥ n`
then `atleast_nd(a, n)` returns `a` itself (identity, no new node);
otherwise it returns a reshape of `a` to a rank-`n` shape obtained by
left-padding with 1s while preserving `a`'s existing dimensions aligned to
the right. -/
theorem atleast_nd_spec (a : Expr) (n : Nat) :
    atleast_nd a n =
      if a.shape.length ≥ n then a
      else reshape a (List.replicate (n - a.shape.length) 1 ++ a.shape) := by
  by_cases h : a.shape.length ≥ n
  · rw [atleast_nd, if_pos h, if_pos h]
  · rw [atleast_nd, if_neg h, if_neg h]
    have hn : a.shape.length ≤ n := by omega
    rw [atleast_nd_loop a.shape n hn a.shape.length (le_refl _)]
    simp

/-- C1: when the graph's optimize flag is set and the device is CPU,
`affine` registers exactly two candidate algorithms with the thread-local
tuner under a shared shape fingerprint — ordinal 1 the quantized int16
path, ordinal 2 the general path with an all-ones column appended so bias
addition is folded into the matrix product — and returns the result of the
tuner's `run()`; in every other configuration it constructs a single
`AffineNodeOp` over the clipped operands, bias, and an all-ones column. -/
theorem affine_dispatch (g : GraphCfg) (tuner : AutoTuner) (a b bias : Expr)
    (transA transB : Bool) (scale : ℚ) :
    (g.optimized = true → g.device = DeviceType.cpu →
      affine g tuner a b bias transA transB scale =
        (AffineResult.tunerRun,
          { algorithms := [
              (hashCombine (affineBaseHash a.shape b.shape bias.shape transA transB) 1,
               Expr.int16Affine
                 (Expr.int16Quantize (if transA then transpose a else a) g.clip)
                 (Expr.int16Quantize (if transB then b else transpose b) g.clip)
                 bias scale),
              (hashCombine (affineBaseHash a.shape b.shape bias.shape transA transB) 2,
               Expr.affineNode (clip a g.clip) (clip b g.clip) bias
                 (Expr.onesNode
                   [Shape.elements (clip a g.clip).shape /
                      Shape.dim (clip a g.clip).shape (-1), 1])
                 transA transB scale)],
            done := tuner.done })) ∧
    ((g.optimized = false ∨ g.device ≠ DeviceType.cpu) →
      affine g tuner a b bias transA transB scale =
        (AffineResult.plain
          (Expr.affineNode (clip a g.clip) (clip b g.clip) bias
            (Expr.onesNode [Shape.elements a.shape / Shape.dim a.shape (-1), 1])
            transA transB scale), tuner)) := by
  constructor
  · intro ho hd
    simp [affine, ho, hd, AutoTuner.clear, AutoTuner.insert]
  · intro h
    have : ¬(g.optimized = true ∧ g.device = DeviceType.cpu) := by
      rcases h with h | h
      · simp [h]
      · simp [h]
    simp [affine, this]

/-- Witness for C1: an optimized CPU graph registers the two candidates. -/
theorem affine_dispatch_witness :
    (⟨DeviceType.cpu, true, 0⟩ : GraphCfg).optimized = true ∧
    (⟨DeviceType.cpu, true, 0⟩ : GraphCfg).device = DeviceType.cpu ∧
    affine ⟨DeviceType.cpu, true, 0⟩ AutoTuner.empty
        (Expr.leaf 0 [2, 4]) (Expr.leaf 1 [4, 4]) (Expr.leaf 2 [4]) false false 1 =
      (AffineResult.tunerRun,
        { algorithms := [
            (hashCombine (affineBaseHash [2, 4] [4, 4] [4] false false) 1,
             Expr.int16Affine
               (Expr.int16Quantize (Expr.leaf 0 [2, 4]) 0)
               (Expr.int16Quantize (transpose (Expr.leaf 1 [4, 4])) 0)
               (Expr.leaf 2 [4]) 1),
            (hashCombine (affineBaseHash [2, 4] [4, 4] [4] false false) 2,
             Expr.affineNode (Expr.leaf 0 [2, 4]) (Expr.leaf 1 [4, 4]) (Expr.leaf 2 [4])
               (Expr.onesNode [2, 1]) false false 1)],
          done := [] }) :=
  ⟨rfl, rfl,
    (affine_dispatch ⟨DeviceType.cpu, true, 0⟩ AutoTuner.empty
      (Expr.leaf 0 [2, 4]) (Expr.leaf 1 [4, 4]) (Expr.leaf 2 [4]) false false 1).1 rfl rfl⟩

/-- C3: the tuner fingerprint for `affine` is derived by dividing every
dimension of the three operand shapes by 4 (integer division) before
hashing and combining with the two transpose flags and a candidate ordinal;
consequently two affine calls with operand shapes `[32,64]`/`[64,16]` and
`[35,64]`/`[64,16]` and the same transpose flags produce the same
fingerprint and reuse the cached algorithm choice without re-measuring: in
the second call's `run()` the resolved decision is replayed (`measured`
flag false, cached winner returned) even under timings that would choose
differently. -/
theorem affine_fingerprint_coarsening :
    (∀ (biasSh : List Nat) (tA tB : Bool),
        affineBaseHash [32, 64] [64, 16] biasSh tA tB =
          affineBaseHash [35, 64] [64, 16] biasSh tA tB) ∧
    ((affine ⟨DeviceType.cpu, true, 0⟩ AutoTuner.empty (Expr.leaf 0 [32, 64])
        (Expr.leaf 1 [64, 16]) (Expr.leaf 2 [16]) false false 1).2.algorithms.map Prod.fst =
      (affine ⟨DeviceType.cpu, true, 0⟩ AutoTuner.empty (Expr.leaf 3 [35, 64])
        (Expr.leaf 1 [64, 16]) (Expr.leaf 2 [16]) false false 1).2.algorithms.map Prod.fst) ∧
    (((affine ⟨DeviceType.cpu, true, 0⟩ AutoTuner.empty (Expr.leaf 0 [32, 64])
        (Expr.leaf 1 [64, 16]) (Expr.leaf 2 [16]) false false 1).2.run [5, 3]).map
          (fun r => (r.1, r.2.2)) = some (1, true)) ∧
    (let T1 := (((affine ⟨DeviceType.cpu, true, 0⟩ AutoTuner.empty (Expr.leaf 0 [32, 64])
        (Expr.leaf 1 [64, 16]) (Expr.leaf 2 [16]) false false 1).2.run [5, 3]).map
          (fun r => r.2.1)).getD AutoTuner.empty
     ((affine ⟨DeviceType.cpu, true, 0⟩ T1 (Expr.leaf 3 [35, 64])
        (Expr.leaf 1 [64, 16]) (Expr.leaf 2 [16]) false false 1).2.run [1, 100]).map
          (fun r => (r.1, r.2.2)) = some (1, false)) := by
  refine ⟨fun biasSh tA tB => rfl, by decide, by decide, by decide⟩

/-- Helper: reading a zipWith-product list with default 0 distributes over
its operands (off-range positions make at least one factor 0). -/
theorem getD_zipWith_mul (da db : List ℚ) (k : Nat) :
    (List.zipWith (· * ·) da db).getD k 0 = da.getD k 0 * db.getD k 0 := by
  induction da generalizing db k with
  | nil => simp [List.getD]
  | cons a da ih =>
    cases db with
    | nil => simp [List.getD]
    | cons b db =>
      cases k with
      | zero => simp [List.getD]
      | succ k => simpa [List.getD] using ih db k

/-- Helper: forming the products inside the reduction (as the scalar
product does) agrees with first multiplying elementwise and then
reducing. -/
theorem reduceIndexDot_eq (da db : List ℚ) (o l i : Nat) :
    reduceIndexDot da db o l i = reduceIndexSum (List.zipWith (· * ·) da db) o l i := by
  unfold reduceIndexDot reduceIndexSum
  refine List.map_congr_left fun oi _ => ?_
  congr 1
  refine List.map_congr_left fun j _ => ?_
  exact (getD_zipWith_mul da db _).symm

/-- Helper: a `ScalarProductNodeOp` evaluates exactly as a `SumNodeOp` over
a `MultNodeOp` of the same operands and axis. -/
theorem evalT_scalarProduct (v w : Expr) (ax : Int) :
    evalT (Expr.scalarProductNode v w ax) = evalT (Expr.sumNode (Expr.multNode v w) ax) := by
  simp only [evalT]
  cases hv : evalT v with
  | none => rfl
  | some tv =>
    cases hw : evalT w with
    | none => rfl
    | some tw =>
      by_cases hd : tv.dims = tw.dims
      · simp [hd, reduceIndexDot_eq]
      · simp [hd]

/-- Helper: evaluation of a `DivNodeOp` depends on its numerator only
through the numerator's value. -/
theorem evalT_div_congr (a a' b : Expr) (h : evalT a = evalT a') :
    evalT (Expr.divNode a b) = evalT (Expr.divNode a' b) := by
  simp only [evalT, h]

/-- C7: for every pair of expressions `v`, `w` and every axis,
`weighted_average(v, w, axis)` equals the composition
`scalar_product(v, w, axis) / sum(w, axis)`, which elementwise equals
`sum(v*w, axis) / sum(w, axis)` under the value semantics, the division
acting on the reduced-shape operands. -/
theorem weighted_average_spec (v w : Expr) (ax : Int) :
    weighted_average v w ax = divExpr (scalar_product v w ax) (sum w ax) ∧
    evalT (weighted_average v w ax) =
      evalT (Expr.divNode (Expr.sumNode (Expr.multNode v w) ax) (Expr.sumNode w ax)) :=
  ⟨rfl, evalT_div_congr _ _ _ (evalT_scalarProduct v w ax)⟩

end Marian
